import Mathlib

/-! Balance board: PID controller and drive loop.

A shallow embedding of `src/motor.cpp` (`Controller::Controller`,
`Controller::pid`) and of the control loop of `task_sim` in `src/main.cpp`.

Modelling conventions.

* The C++ `float` is IEEE binary32 with round to nearest, ties to even.  A
  value is a finite rational, an infinity or NaN (`F32`); every arithmetic
  operation computes the exact result and rounds it with `F32.round`, which
  also produces the subnormal values and the overflow to infinity.  The two
  zeros are identified: the program divides only by its constant `Time = 5`,
  and no other operation it uses tells them apart.  Each operation of the
  source rounds on its own (no fused multiply-add).
* The binary32 values among the `F32.fin q` are those with
  `F32.round q = F32.fin q` (`F32.exact q`).  Statements quantified over `F32`
  hold in particular for them; the concrete inputs used below are binary32
  values.
* One pass through the `for (;;)` body of `task_sim` is one *control cycle*.  A
  cycle reads three things from its environment: the angle share in `task_sim`
  (`pitch`), the angle share again inside `Controller::pid` (`cur_angle`; the
  sampling task may have published in between, so the two reads are separate
  inputs) and the switch on pin `D1`.
* Pin writes are recorded as a list of events in program order, and are also
  applied to a record of the last value written to each pin.  The value of an
  `analogWrite` is the value of its argument expression at the call site.
-/

namespace Balanceboard

/-! ## The `float` type -/

/-- A `float`: a finite value, an infinity (`neg` for the negative one) or NaN. -/
inductive F32 where
  | fin (q : ℚ)
  | inf (neg : Bool)
  | nan
  deriving DecidableEq, Repr

namespace F32

/-- Rounding of a rational to the nearest integer, ties to the even one. -/
def roundEven (x : ℚ) : ℤ :=
  let f := ⌊x⌋
  let d := x - f
  if d < 1 / 2 then f
  else if 1 / 2 < d then f + 1
  else if f % 2 = 0 then f else f + 1

/-- The number of halvings that take `m` below 2, at most `fuel` of them: with
enough fuel, the floor of the binary logarithm of `m`. -/
def halvings : ℕ → ℕ → ℕ
  | 0, _ => 0
  | fuel + 1, m => if m < 2 then 0 else halvings fuel (m / 2) + 1

/-- The floor of the binary logarithm of a positive natural number. -/
def ilog2 (n : ℕ) : ℕ := halvings n n

/-- The binary exponent of a positive rational `q`: the integer `e` with
`2 ^ e ≤ q < 2 ^ (e + 1)`.  The difference of the logarithms of numerator and
denominator is `e` or `e + 1`. -/
def binexp (q : ℚ) : ℤ :=
  let k : ℤ := (ilog2 q.num.natAbs : ℤ) - (ilog2 q.den : ℤ)
  if (2 : ℚ) ^ k ≤ q then k else k - 1

/-- Rounding of an exact result to binary32.  With `e` the binary exponent of
`|q|`, not below the least normal exponent -126, the spacing of the binary32
values around `q` is `2 ^ (e - 23)`; `|q|` is rounded to the nearest multiple
of it, ties to even, and a result of `2 ^ 128` or more is an infinity. -/
def round (q : ℚ) : F32 :=
  let e := max (binexp |q|) (-126)
  let ulp : ℚ := 2 ^ (e - 23)
  let r : ℚ := roundEven (|q| / ulp) * ulp
  if (2 : ℚ) ^ (128 : ℕ) ≤ r then inf (decide (q < 0))
  else fin (if q < 0 then -r else r)

/-- Unary minus. -/
def neg : F32 → F32
  | fin x => fin (-x)
  | inf b => inf (!b)
  | nan => nan

/-- Addition. -/
def add : F32 → F32 → F32
  | fin x, fin y => round (x + y)
  | fin _, inf b => inf b
  | inf a, fin _ => inf a
  | inf a, inf b => if a = b then inf a else nan
  | _, _ => nan

/-- Subtraction. -/
def sub (x y : F32) : F32 := add x (neg y)

/-- Multiplication. -/
def mul : F32 → F32 → F32
  | fin x, fin y => round (x * y)
  | fin x, inf b => if x = 0 then nan else inf (xor (decide (x < 0)) b)
  | inf a, fin y => if y = 0 then nan else inf (xor a (decide (y < 0)))
  | inf a, inf b => inf (xor a b)
  | _, _ => nan

/-- Division.  A zero divisor is taken as the positive zero; the program
divides only by 5. -/
def div : F32 → F32 → F32
  | fin x, fin y =>
    if y = 0 then (if x = 0 then nan else inf (decide (x < 0))) else round (x / y)
  | fin _, inf _ => fin 0
  | inf a, fin y => inf (xor a (decide (y < 0)))
  | _, _ => nan

/-- The comparison `x < y`; false when either side is NaN. -/
def lt : F32 → F32 → Bool
  | fin x, fin y => decide (x < y)
  | fin _, inf b => !b
  | inf a, fin _ => a
  | inf a, inf b => a && !b
  | _, _ => false

/-- The comparison `x <= y`; false when either side is NaN. -/
def le : F32 → F32 → Bool
  | fin x, fin y => decide (x ≤ y)
  | fin _, inf b => !b
  | inf a, fin _ => a
  | inf a, inf b => a || !b
  | _, _ => false

/-- The lesser of two values, NaN if either is NaN. -/
def min : F32 → F32 → F32
  | fin x, fin y => fin (Min.min x y)
  | fin x, inf b => if b then inf true else fin x
  | inf a, fin y => if a then inf true else fin y
  | inf a, inf b => inf (a || b)
  | _, _ => nan

instance : Add F32 := ⟨add⟩
instance : Sub F32 := ⟨sub⟩
instance : Mul F32 := ⟨mul⟩
instance : Div F32 := ⟨div⟩
instance : Neg F32 := ⟨neg⟩

/-- The exact result `q` needs no rounding: it is a binary32 value. -/
def exact (q : ℚ) : Prop := round q = fin q

instance (q : ℚ) : Decidable (exact q) := by unfold exact; infer_instance

end F32

/-! ## `motor.h` / `motor.cpp` -/

/-- The data members of `class Controller` (`motor.h`). -/
structure Controller where
  Kp : F32
  Ki : F32
  Kd : F32
  pre_error : F32
  P_control : F32
  I_control : F32
  D_control : F32
  deriving DecidableEq, Repr

/-- The constructor `Controller::Controller (kp, ki, kd)`: the gains are stored,
the three control values and the previous error are set to zero. -/
def Controller.new (kp ki kd : F32) : Controller :=
  { Kp := kp, Ki := ki, Kd := kd,
    P_control := .fin 0, I_control := .fin 0, D_control := .fin 0,
    pre_error := .fin 0 }

/-- Modelled from the spec: the `abs` of `Arduino.h`, which is not part of the
sources; the spec calls it the "absolute value of the sum of the three terms".
The absolute value of an infinity is the positive infinity and that of NaN is
NaN. -/
def arduino_abs : F32 → F32
  | .fin x => .fin |x|
  | .inf _ => .inf false
  | .nan => .nan

/-- The local `desired_angle` of `Controller::pid`. -/
def desired_angle : F32 := .fin (-4)

/-- The local `Time` of `Controller::pid`. -/
def Time : F32 := .fin 5

/-- One call of `Controller::pid`.  `cur_angle` is the value that
`angle.get(cur_angle)` delivers; the result is the returned `PID_control`
together with the controller after the call. -/
def Controller.pid (c : Controller) (cur_angle : F32) : F32 × Controller :=
  let error := desired_angle - cur_angle
  let P_control := c.Kp * error
  let I_control := c.I_control + c.Ki * error * Time
  let D_control := c.Kd * (error - c.pre_error) / Time
  let PID_control := arduino_abs (P_control + I_control + D_control)
  let PID_control := if F32.lt (.fin 255) PID_control then .fin 255 else PID_control
  (PID_control,
    { c with P_control := P_control, I_control := I_control,
             D_control := D_control, pre_error := error })

/-- The controller after successive calls of `pid`, one per listed angle. -/
def Controller.pid_calls (c : Controller) : List F32 → Controller
  | [] => c
  | a :: as => Controller.pid_calls (c.pid a).2 as

/-- The values returned by successive calls of `pid`, one per listed angle. -/
def Controller.pid_outputs (c : Controller) : List F32 → List F32
  | [] => []
  | a :: as => (c.pid a).1 :: Controller.pid_outputs (c.pid a).2 as

/-! ## `main.cpp` -/

/-- The pins that `task_sim` configures. -/
inductive Pin where
  | D1 | D3 | D4 | D5 | D6 | D12 | D13
  deriving DecidableEq, Repr

/-- A write to a pin: `digitalWrite (pin, level)` with `true` for `HIGH`, or
`analogWrite (pin, value)`. -/
inductive PinWrite where
  | digital (pin : Pin) (level : Bool)
  | analog (pin : Pin) (value : F32)
  deriving DecidableEq, Repr

/-- The last value written to each output pin.  `D12` and `D4` are the brake
lines (`LOW`, i.e. `false`, is brake engaged), `D6` and `D3` carry the duty
cycle. -/
structure Pins where
  D13 : Bool
  D12 : Bool
  D5 : Bool
  D4 : Bool
  D6 : F32
  D3 : F32
  deriving DecidableEq, Repr

/-- The effect of one write on the pin record. -/
def Pins.write (p : Pins) : PinWrite → Pins
  | .digital .D13 v => { p with D13 := v }
  | .digital .D12 v => { p with D12 := v }
  | .digital .D5 v => { p with D5 := v }
  | .digital .D4 v => { p with D4 := v }
  | .analog .D6 v => { p with D6 := v }
  | .analog .D3 v => { p with D3 := v }
  | _ => p

/-- The effect of a list of writes, in order. -/
def Pins.writes (p : Pins) (ws : List PinWrite) : Pins :=
  ws.foldl Pins.write p

/-- The variables of `task_sim` that live across iterations of its loop,
together with the pin record. -/
structure SimState where
  pitch : F32
  gain : F32
  state : Nat
  button_pressed : Bool
  my_pid : Controller
  pins : Pins
  deriving DecidableEq, Repr

/-- What one control cycle reads from its environment. -/
structure CycleInput where
  pitch : F32
  cur_angle : F32
  button : Bool
  deriving DecidableEq, Repr

/-- The writes that `task_sim` makes before its loop (lines 65 to 68). -/
def setup_writes : List PinWrite :=
  [.digital .D13 true, .digital .D12 false, .digital .D5 false, .digital .D4 false]

/-- The state on entry to the loop of `task_sim`: `pitch = 0`, `state = 0`,
`button_pressed = 0`, the controller `my_pid (38, .001, 0)` with the literal
`.001` rounded to `float`, and the pins after the set-up writes.  No
`analogWrite` has been made, so the duty cycle of `D6` and `D3` is at its reset
value 0; `gain` is assigned in every cycle before it is read, and starts at 0
here. -/
def task_sim_init : SimState :=
  { pitch := .fin 0, gain := .fin 0, state := 0, button_pressed := false,
    my_pid := Controller.new (.fin 38) (F32.round (1 / 1000)) (.fin 0),
    pins := Pins.writes
      { D13 := false, D12 := false, D5 := false, D4 := false,
        D6 := .fin 0, D3 := .fin 0 }
      setup_writes }

/-- One pass through the body of the `for (;;)` loop of `task_sim`, returning
the state after the pass and the pin writes it made, in order.

The two mode tests are the assignments `state = 0` and `state = 1` of the
source: each stores its right-hand side in `state` and the branch is taken when
the stored value is non-zero. -/
def task_sim_cycle (s : SimState) (inp : CycleInput) : SimState × List PinWrite :=
  let pitch := inp.pitch
  let r := s.my_pid.pid inp.cur_angle
  let gain := r.1
  let my_pid := r.2
  let state : Nat := 0
  if state ≠ 0 then
    let ws := [PinWrite.digital .D12 false, PinWrite.digital .D4 false]
    let button_pressed := inp.button
    let state := if button_pressed = true then 1 else state
    ({ pitch := pitch, gain := gain, state := state, button_pressed := button_pressed,
       my_pid := my_pid, pins := s.pins.writes ws }, ws)
  else
    let state : Nat := 1
    if state ≠ 0 then
      let ws := [PinWrite.digital .D12 true, PinWrite.digital .D4 true]
      let button_pressed := inp.button
      if button_pressed = true then
        if F32.le pitch (.fin (-4)) = true then
          let ws := ws ++ [PinWrite.analog .D6 (.fin 0), PinWrite.analog .D3 (.fin 0)]
          ({ pitch := pitch, gain := gain, state := state,
             button_pressed := button_pressed,
             my_pid := my_pid, pins := s.pins.writes ws }, ws)
        else
          let ws := ws ++ [PinWrite.analog .D6 gain, PinWrite.analog .D3 gain]
          ({ pitch := pitch, gain := gain, state := state,
             button_pressed := button_pressed,
             my_pid := my_pid, pins := s.pins.writes ws }, ws)
      else
        let state : Nat := 0
        ({ pitch := pitch, gain := gain, state := state,
           button_pressed := button_pressed,
           my_pid := my_pid, pins := s.pins.writes ws }, ws)
    else
      ({ pitch := pitch, gain := gain, state := state,
         button_pressed := s.button_pressed,
         my_pid := my_pid, pins := s.pins }, [])

/-- The state after a sequence of control cycles. -/
def task_sim_run (s : SimState) : List CycleInput → SimState
  | [] => s
  | inp :: rest => task_sim_run (task_sim_cycle s inp).1 rest

/-- The values that `my_pid.pid ()` returns over a sequence of control cycles,
one per cycle. -/
def task_sim_gains (s : SimState) : List CycleInput → List F32
  | [] => []
  | inp :: rest => (task_sim_cycle s inp).1.gain :: task_sim_gains (task_sim_cycle s inp).1 rest

/-- The duty-cycle writes among a list of pin writes. -/
def analog_writes (ws : List PinWrite) : List PinWrite :=
  ws.filter fun w => match w with
    | .analog _ _ => true
    | .digital _ _ => false

/-- A state in mode ENGAGED used to instantiate the cycle theorems: the entry
state of the loop with `state` set to 1. -/
def engaged_example : SimState := { task_sim_init with state := 1 }

/-- The PID step of the specification in exact arithmetic, for gains
`Kp Ki Kd`, previous error `p`, accumulator `I` and current angle `a`: with
`e = -4 - a` and the fixed time step 5 it yields the saturated output
`min (|Kp*e + (I + Ki*e*5) + Kd*(e - p)/5|) 255`, the new accumulator
`I + Ki*e*5` and the new previous error `e`. -/
def pid_exact (Kp Ki Kd p I a : ℚ) : ℚ × ℚ × ℚ :=
  let e := -4 - a
  (min |Kp * e + (I + Ki * e * 5) + Kd * (e - p) / 5| 255, I + Ki * e * 5, e)

/-- Reference definition of one PID step, in the words of the specification,
with every operation a `float` operation: the error, the proportional,
integral and derivative terms, the absolute value of their sum saturated at
255, the new accumulator and the new previous error. -/
def pid_reference (Kp Ki Kd p I a : F32) : F32 × F32 × F32 :=
  let e := F32.fin (-4) - a
  (F32.min (arduino_abs (Kp * e + (I + Ki * e * F32.fin 5) + Kd * (e - p) / F32.fin 5))
      (F32.fin 255),
    I + Ki * e * F32.fin 5, e)

/-- No operation of one PID step rounds: each exact intermediate result of the
step, for finite gains `Kp Ki Kd`, previous error `p`, accumulator `I` and
angle `a`, is a binary32 value. -/
def pid_no_rounding (Kp Ki Kd p I a : ℚ) : Prop :=
  F32.exact (-4 - a) ∧ F32.exact (Kp * (-4 - a)) ∧ F32.exact (Ki * (-4 - a)) ∧
  F32.exact (Ki * (-4 - a) * 5) ∧ F32.exact (I + Ki * (-4 - a) * 5) ∧
  F32.exact (-4 - a - p) ∧ F32.exact (Kd * (-4 - a - p)) ∧
  F32.exact (Kd * (-4 - a - p) / 5) ∧
  F32.exact (Kp * (-4 - a) + (I + Ki * (-4 - a) * 5)) ∧
  F32.exact (Kp * (-4 - a) + (I + Ki * (-4 - a) * 5) + Kd * (-4 - a - p) / 5)

instance (Kp Ki Kd p I a : ℚ) : Decidable (pid_no_rounding Kp Ki Kd p I a) := by
  unfold pid_no_rounding; infer_instance

/-- No operation on the accumulator rounds over a sequence of calls with the
angles listed, starting from the accumulator `I` with integral gain `Ki`. -/
def accumulate_no_rounding (Ki : ℚ) : ℚ → List ℚ → Prop
  | _, [] => True
  | I, a :: as =>
    F32.exact (-4 - a) ∧ F32.exact (Ki * (-4 - a)) ∧ F32.exact (Ki * (-4 - a) * 5) ∧
    F32.exact (I + Ki * (-4 - a) * 5) ∧
    accumulate_no_rounding Ki (I + Ki * (-4 - a) * 5) as

/-- The controller `Controller (-2e8, 1, 0)` after one call of `pid` at the
angle -20000004. -/
def rounding_example : Controller :=
  ((Controller.new (.fin (-200000000)) (.fin 1) (.fin 0)).pid (.fin (-20000004))).2

/-! ## Auxiliary facts: rounding -/

namespace F32

theorem halvings_spec (fuel m : ℕ) (hm : m ≤ fuel) (h1 : 1 ≤ m) :
    2 ^ halvings fuel m ≤ m ∧ m < 2 ^ (halvings fuel m + 1) := by
  induction fuel generalizing m with
  | zero => omega
  | succ f ih =>
    unfold halvings
    split
    · simp; omega
    · have h2 : 2 ≤ m := by omega
      obtain ⟨ha, hb⟩ := ih (m / 2) (by omega) (by omega)
      rw [pow_succ, pow_succ] at *
      constructor <;> omega

/-- For `n ≥ 1`, `ilog2 n` is the floor of the binary logarithm of `n`. -/
theorem ilog2_spec (n : ℕ) (h1 : 1 ≤ n) : 2 ^ ilog2 n ≤ n ∧ n < 2 ^ (ilog2 n + 1) :=
  halvings_spec n n le_rfl h1

theorem roundEven_cases (x : ℚ) : roundEven x = ⌊x⌋ ∨
    (roundEven x = ⌊x⌋ + 1 ∧ 1 / 2 ≤ x - ⌊x⌋) := by
  unfold roundEven
  simp only
  split
  · left; rfl
  · have h : 1 / 2 ≤ x - ⌊x⌋ := not_lt.mp ‹_›
    split
    · right; exact ⟨rfl, h⟩
    · split
      · left; rfl
      · right; exact ⟨rfl, h⟩

theorem roundEven_le (x : ℚ) (N : ℤ) (h : x ≤ N) : roundEven x ≤ N := by
  have hf : ⌊x⌋ ≤ N := Int.floor_le_floor h |>.trans (by simp)
  rcases roundEven_cases x with h1 | ⟨h1, h2⟩
  · rw [h1]; exact hf
  · rw [h1]
    have : (⌊x⌋ : ℚ) < N := by linarith
    have : ⌊x⌋ < N := by exact_mod_cast this
    omega

theorem roundEven_nonneg (x : ℚ) (h : 0 ≤ x) : 0 ≤ roundEven x := by
  have hf : 0 ≤ ⌊x⌋ := Int.floor_nonneg.mpr h
  rcases roundEven_cases x with h1 | ⟨h1, _⟩ <;> rw [h1] <;> omega

theorem roundEven_eq_of_near (x : ℚ) (n : ℤ) (h : |x - n| < 1 / 2) : roundEven x = n := by
  rw [abs_lt] at h
  rcases roundEven_cases x with h1 | ⟨h1, h2⟩
  · rw [h1]
    unfold roundEven at h1
    simp only at h1
    have hfl := Int.floor_le x
    have hlt := Int.lt_floor_add_one x
    -- either floor = n or floor = n - 1 with the fraction at least one half
    by_contra hne
    have hd : x - ⌊x⌋ < 1 / 2 ∨ ¬ (x - ⌊x⌋ < 1 / 2) := em _
    have hn1 : (⌊x⌋ : ℚ) < n + 1 := by linarith [h.2]
    have hn2 : (n : ℚ) - 1 < ⌊x⌋ + 1 := by linarith [h.1]
    have hn1' : ⌊x⌋ < n + 1 := by exact_mod_cast hn1
    have hn2' : n - 1 < ⌊x⌋ + 1 := by exact_mod_cast hn2
    have hfn : ⌊x⌋ = n - 1 := by omega
    have hfq : (⌊x⌋ : ℚ) = n - 1 := by rw [hfn]; push_cast; ring
    have hd2 : 1 / 2 < x - ⌊x⌋ := by rw [hfq]; linarith [h.1]
    rw [if_neg (by linarith), if_pos hd2] at h1
    omega
  · rw [h1]
    have hfl := Int.floor_le x
    have hn1 : (⌊x⌋ : ℚ) < n := by linarith [h.2]
    have hn2 : (n : ℚ) - 1 < ⌊x⌋ + 1 := by linarith [h.1, Int.lt_floor_add_one x]
    have hn1' : ⌊x⌋ < n := by exact_mod_cast hn1
    have hn2' : n - 1 < ⌊x⌋ + 1 := by exact_mod_cast hn2
    omega

/-- The binary exponent `e = binexp q` of a positive rational is the one with
`2 ^ e ≤ q < 2 ^ (e + 1)`. -/
theorem binexp_spec (q : ℚ) (hq : 0 < q) :
    (2 : ℚ) ^ binexp q ≤ q ∧ q < (2 : ℚ) ^ (binexp q + 1) := by
  have hn : 0 < q.num := Rat.num_pos.mpr hq
  have hd : 0 < q.den := q.den_pos
  obtain ⟨a1, a2⟩ := ilog2_spec q.num.natAbs (by omega)
  obtain ⟨b1, b2⟩ := ilog2_spec q.den hd
  have hqeq : q = (q.num.natAbs : ℚ) / (q.den : ℚ) := by
    have h2 : (q.num.natAbs : ℚ) = (q.num : ℚ) := by
      rw [Nat.cast_natAbs, abs_of_pos hn]
    rw [h2, Rat.num_div_den]
  have A1 : (2 : ℚ) ^ ilog2 q.num.natAbs ≤ (q.num.natAbs : ℚ) := by exact_mod_cast a1
  have A2 : (q.num.natAbs : ℚ) < 2 ^ (ilog2 q.num.natAbs + 1) := by exact_mod_cast a2
  have B1 : (2 : ℚ) ^ ilog2 q.den ≤ (q.den : ℚ) := by exact_mod_cast b1
  have B2 : (q.den : ℚ) < 2 ^ (ilog2 q.den + 1) := by exact_mod_cast b2
  have hdq : (0 : ℚ) < q.den := by exact_mod_cast hd
  have hnq : (0 : ℚ) < q.num.natAbs := by
    have : 0 < q.num.natAbs := by omega
    exact_mod_cast this
  have hpa : (0 : ℚ) < 2 ^ ilog2 q.num.natAbs := by positivity
  have hpb : (0 : ℚ) < 2 ^ ilog2 q.den := by positivity
  have up : q < (2 : ℚ) ^ ((ilog2 q.num.natAbs : ℤ) - (ilog2 q.den : ℤ) + 1) := by
    have e1 : (2 : ℚ) ^ ((ilog2 q.num.natAbs : ℤ) - (ilog2 q.den : ℤ) + 1)
        = 2 ^ (ilog2 q.num.natAbs + 1) / 2 ^ ilog2 q.den := by
      rw [show (ilog2 q.num.natAbs : ℤ) - (ilog2 q.den : ℤ) + 1
          = ((ilog2 q.num.natAbs + 1 : ℕ) : ℤ) - ((ilog2 q.den : ℕ) : ℤ) by push_cast; ring,
        zpow_sub₀ two_ne_zero, zpow_natCast, zpow_natCast]
    rw [e1]
    refine lt_of_eq_of_lt hqeq ((div_lt_div_iff₀ hdq hpb).mpr ?_)
    calc (q.num.natAbs : ℚ) * 2 ^ ilog2 q.den
        < 2 ^ (ilog2 q.num.natAbs + 1) * 2 ^ ilog2 q.den :=
          mul_lt_mul_of_pos_right A2 hpb
      _ ≤ 2 ^ (ilog2 q.num.natAbs + 1) * q.den :=
          mul_le_mul_of_nonneg_left B1 (by positivity)
  have lo : (2 : ℚ) ^ ((ilog2 q.num.natAbs : ℤ) - (ilog2 q.den : ℤ) - 1) ≤ q := by
    have e1 : (2 : ℚ) ^ ((ilog2 q.num.natAbs : ℤ) - (ilog2 q.den : ℤ) - 1)
        = 2 ^ ilog2 q.num.natAbs / 2 ^ (ilog2 q.den + 1) := by
      rw [show (ilog2 q.num.natAbs : ℤ) - (ilog2 q.den : ℤ) - 1
          = ((ilog2 q.num.natAbs : ℕ) : ℤ) - ((ilog2 q.den + 1 : ℕ) : ℤ) by push_cast; ring,
        zpow_sub₀ two_ne_zero, zpow_natCast, zpow_natCast]
    rw [e1]
    refine le_of_le_of_eq ((div_le_div_iff₀ (by positivity) hdq).mpr ?_) hqeq.symm
    calc (2 : ℚ) ^ ilog2 q.num.natAbs * q.den
        ≤ q.num.natAbs * q.den := mul_le_mul_of_nonneg_right A1 hdq.le
      _ ≤ q.num.natAbs * 2 ^ (ilog2 q.den + 1) :=
          mul_le_mul_of_nonneg_left B2.le hnq.le
  unfold binexp
  simp only
  split
  · exact ⟨‹_›, up⟩
  · refine ⟨lo, ?_⟩
    rw [sub_add_cancel]
    exact lt_of_not_le ‹_›

theorem binexp_unique (q : ℚ) (e : ℤ) (h1 : (2 : ℚ) ^ e ≤ q) (h2 : q < (2 : ℚ) ^ (e + 1)) :
    binexp q = e := by
  have hq : 0 < q := lt_of_lt_of_le (by positivity) h1
  obtain ⟨s1, s2⟩ := binexp_spec q hq
  have c1 : binexp q < e + 1 :=
    (zpow_lt_zpow_iff_right₀ (one_lt_two : (1 : ℚ) < 2)).mp (lt_of_le_of_lt s1 h2)
  have c2 : e < binexp q + 1 :=
    (zpow_lt_zpow_iff_right₀ (one_lt_two : (1 : ℚ) < 2)).mp (lt_of_le_of_lt h1 s2)
  omega

theorem round_zero : round 0 = fin 0 := by decide!

/-- Rounding does not cross a power of two, nor zero: if `|q| ≤ 2 ^ k` for an
exponent `k` of the binary32 range, `q` rounds to a finite value of the same
sign that is at most `2 ^ k` in absolute value. -/
theorem round_bounds (q : ℚ) (k : ℤ) (hk : -149 ≤ k) (hk2 : k < 128)
    (hq : |q| ≤ (2 : ℚ) ^ k) :
    ∃ y : ℚ, round q = fin y ∧ |y| ≤ (2 : ℚ) ^ k ∧ (q ≤ 0 → y ≤ 0) ∧ (0 ≤ q → 0 ≤ y) := by
  by_cases h0 : q = 0
  · subst h0
    exact ⟨0, round_zero, by simp; positivity, fun _ => le_rfl, fun _ => le_rfl⟩
  have ha : 0 < |q| := abs_pos.mpr h0
  obtain ⟨s1, _⟩ := binexp_spec |q| ha
  have hbk : binexp |q| ≤ k :=
    (zpow_le_zpow_iff_right₀ (one_lt_two : (1 : ℚ) < 2)).mp (le_trans s1 hq)
  have he : max (binexp |q|) (-126) - 23 ≤ k := by
    rcases max_cases (binexp |q|) (-126) with ⟨h, _⟩ | ⟨h, _⟩ <;> rw [h] <;> omega
  have hulp : (0 : ℚ) < 2 ^ (max (binexp |q|) (-126) - 23) := by positivity
  -- the bound is a whole number of spacings
  obtain ⟨j, hj⟩ : ∃ j : ℕ, k = max (binexp |q|) (-126) - 23 + j :=
    ⟨(k - (max (binexp |q|) (-126) - 23)).toNat, by omega⟩
  have hN : (2 : ℚ) ^ k = ((2 ^ j : ℤ) : ℚ) * 2 ^ (max (binexp |q|) (-126) - 23) := by
    rw [hj, zpow_add₀ two_ne_zero, zpow_natCast]
    push_cast
    ring
  have hm : roundEven (|q| / 2 ^ (max (binexp |q|) (-126) - 23)) ≤ (2 ^ j : ℤ) := by
    apply roundEven_le
    rw [div_le_iff₀ hulp, ← hN]
    exact hq
  have hm0 : 0 ≤ roundEven (|q| / 2 ^ (max (binexp |q|) (-126) - 23)) :=
    roundEven_nonneg _ (div_nonneg ha.le hulp.le)
  have hr : (roundEven (|q| / 2 ^ (max (binexp |q|) (-126) - 23)) : ℚ)
      * 2 ^ (max (binexp |q|) (-126) - 23) ≤ 2 ^ k := by
    rw [hN]
    exact mul_le_mul_of_nonneg_right (by exact_mod_cast hm) hulp.le
  have hr0 : (0 : ℚ) ≤ (roundEven (|q| / 2 ^ (max (binexp |q|) (-126) - 23)) : ℚ)
      * 2 ^ (max (binexp |q|) (-126) - 23) :=
    mul_nonneg (by exact_mod_cast hm0) hulp.le
  have hlt : ¬ ((2 : ℚ) ^ (128 : ℕ) ≤ (roundEven (|q| / 2 ^ (max (binexp |q|) (-126) - 23)) : ℚ)
      * 2 ^ (max (binexp |q|) (-126) - 23)) := by
    intro h
    have h128 : (2 : ℚ) ^ k < 2 ^ (128 : ℕ) := by
      rw [← zpow_natCast]
      exact (zpow_lt_zpow_iff_right₀ (one_lt_two : (1 : ℚ) < 2)).mpr (by omega)
    linarith
  unfold round
  simp only
  rw [if_neg hlt]
  refine ⟨_, rfl, ?_, ?_, ?_⟩
  · split
    · rw [abs_neg, abs_of_nonneg hr0]; exact hr
    · rw [abs_of_nonneg hr0]; exact hr
  · intro hq0
    rw [if_pos (lt_of_le_of_ne hq0 h0)]
    linarith
  · intro hq0
    rw [if_neg (not_lt.mpr hq0)]
    exact hr0

/-- A negative `q` with `2 ^ e ≤ |q| < 2 ^ (e + 1)` in the normal range whose
quotient by the spacing `2 ^ (e - 23)` is within one half of the integer `n`
rounds to `-(n * 2 ^ (e - 23))`. -/
theorem round_neg_of_near (q : ℚ) (e n : ℤ) (hneg : q < 0)
    (h1 : (2 : ℚ) ^ e ≤ |q|) (h2 : |q| < (2 : ℚ) ^ (e + 1)) (he : -126 ≤ e)
    (hn : abs (|q| / 2 ^ (e - 23) - n) < 1 / 2)
    (hfin : (n : ℚ) * 2 ^ (e - 23) < 2 ^ (128 : ℕ)) :
    round q = fin (-((n : ℚ) * 2 ^ (e - 23))) := by
  have hb : binexp |q| = e := binexp_unique _ _ h1 h2
  unfold round
  simp only
  rw [hb, max_eq_left he, roundEven_eq_of_near _ _ hn, if_neg (not_le.mpr hfin), if_pos hneg]

end F32

/-! ## Auxiliary facts: the controller and the cycle -/

theorem F32.le_eq_false_of_lt (a b : F32) (h : F32.lt a b = true) : F32.le b a = false := by
  cases a <;> cases b <;> simp_all [F32.lt, F32.le]

theorem pid_snd (c : Controller) (a : F32) :
    (c.pid a).2 = { c with P_control := c.Kp * (desired_angle - a),
                           I_control := c.I_control + c.Ki * (desired_angle - a) * Time,
                           D_control := c.Kd * ((desired_angle - a) - c.pre_error) / Time,
                           pre_error := desired_angle - a } := by
  simp only [Controller.pid]

/-- Every cycle hands the controller to `pid` once and keeps the returned value
in `gain`, whatever branch is taken afterwards. -/
theorem cycle_my_pid (s : SimState) (inp : CycleInput) :
    (task_sim_cycle s inp).1.my_pid = (s.my_pid.pid inp.cur_angle).2 ∧
    (task_sim_cycle s inp).1.gain = (s.my_pid.pid inp.cur_angle).1 := by
  unfold task_sim_cycle
  by_cases hb : inp.button = true <;>
    by_cases hp : F32.le inp.pitch (.fin (-4)) = true <;> simp [hb, hp]

theorem run_my_pid (s : SimState) (inps : List CycleInput) :
    (task_sim_run s inps).my_pid = s.my_pid.pid_calls (inps.map CycleInput.cur_angle) := by
  induction inps generalizing s with
  | nil => rfl
  | cons inp rest ih =>
    rw [task_sim_run, ih, (cycle_my_pid s inp).1]
    rfl

theorem gains_eq_outputs (s : SimState) (inps : List CycleInput) :
    task_sim_gains s inps = s.my_pid.pid_outputs (inps.map CycleInput.cur_angle) := by
  induction inps generalizing s with
  | nil => rfl
  | cons inp rest ih =>
    rw [task_sim_gains, ih, (cycle_my_pid s inp).1, (cycle_my_pid s inp).2]
    rfl

theorem F32.fin_add (x y : ℚ) : F32.fin x + F32.fin y = F32.round (x + y) := rfl

theorem F32.fin_sub (x y : ℚ) : F32.fin x - F32.fin y = F32.round (x - y) := by
  show F32.round (x + -y) = _
  rw [sub_eq_add_neg]

theorem F32.fin_mul (x y : ℚ) : F32.fin x * F32.fin y = F32.round (x * y) := rfl

theorem F32.fin_div_five (x : ℚ) : F32.fin x / F32.fin 5 = F32.round (x / 5) := by
  show F32.div _ _ = _
  simp [F32.div]

theorem F32.round_ne_nan (q : ℚ) : F32.round q ≠ F32.nan := by
  unfold F32.round
  simp only
  split <;> simp

theorem pid_fst (c : Controller) (a : F32) :
    (c.pid a).1 = F32.min (arduino_abs (c.Kp * (desired_angle - a)
        + (c.I_control + c.Ki * (desired_angle - a) * Time)
        + c.Kd * ((desired_angle - a) - c.pre_error) / Time)) (.fin 255) := by
  simp only [Controller.pid]
  generalize c.Kp * (desired_angle - a)
        + (c.I_control + c.Ki * (desired_angle - a) * Time)
        + c.Kd * ((desired_angle - a) - c.pre_error) / Time = S
  cases S with
  | fin x =>
    simp only [arduino_abs, F32.lt, F32.min, decide_eq_true_eq]
    split
    · rw [min_eq_right (le_of_lt ‹_›)]
    · rw [min_eq_left (not_lt.mp ‹_›)]
  | inf b => simp [arduino_abs, F32.lt, F32.min]
  | nan => simp [arduino_abs, F32.lt, F32.min]

theorem min_abs_cases (S : F32) :
    F32.min (arduino_abs S) (.fin 255) = .nan ∨
      ∃ q : ℚ, F32.min (arduino_abs S) (.fin 255) = .fin q ∧ 0 ≤ q ∧ q ≤ 255 := by
  cases S with
  | fin x =>
    right
    exact ⟨min |x| 255, rfl, le_min (abs_nonneg _) (by norm_num), min_le_right _ _⟩
  | inf b =>
    right
    exact ⟨255, by simp [arduino_abs, F32.min], by norm_num, le_refl _⟩
  | nan => left; rfl

theorem min_abs_eq_nan_iff (S : F32) :
    F32.min (arduino_abs S) (.fin 255) = .nan ↔ S = .nan := by
  cases S <;> simp [arduino_abs, F32.min]

theorem add_fin_ne_nan (x : F32) (d : ℚ) (h : x ≠ .nan) : x + F32.fin d ≠ .nan := by
  cases x with
  | fin v => exact F32.round_ne_nan _
  | inf b => intro h'; cases h'
  | nan => exact absurd rfl h

theorem pid_calls_Ki (c : Controller) (as : List F32) : (c.pid_calls as).Ki = c.Ki := by
  induction as generalizing c with
  | nil => rfl
  | cons a as ih => rw [Controller.pid_calls, ih, pid_snd]

theorem pid_calls_I_control (c : Controller) (as : List F32) :
    (c.pid_calls as).I_control
      = as.foldl (fun acc a => acc + c.Ki * (desired_angle - a) * Time) c.I_control := by
  induction as generalizing c with
  | nil => rfl
  | cons a as ih =>
    rw [Controller.pid_calls, ih, pid_snd]
    rfl

theorem pid_calls_exact (c : Controller) (ki I : ℚ) (as : List ℚ)
    (hki : c.Ki = .fin ki) (hI : c.I_control = .fin I)
    (h : accumulate_no_rounding ki I as) :
    (c.pid_calls (as.map F32.fin)).I_control
      = .fin (I + ki * 5 * (as.map fun a => -4 - a).sum) := by
  induction as generalizing c I with
  | nil => simp [Controller.pid_calls, hI]
  | cons a as ih =>
    obtain ⟨h1, h2, h3, h4, h5⟩ := h
    have hstep : (c.pid (.fin a)).2.I_control = .fin (I + ki * (-4 - a) * 5) := by
      rw [pid_snd]
      simp only [hki, hI, desired_angle, Time, F32.fin_sub, F32.fin_mul, F32.fin_add]
      unfold F32.exact at h1 h2 h3 h4
      rw [h1, F32.fin_mul, h2, F32.fin_mul, h3, F32.fin_add, h4]
    have hk : (c.pid (.fin a)).2.Ki = .fin ki := by rw [pid_snd]; exact hki
    rw [List.map_cons, Controller.pid_calls, ih _ _ hk hstep h5]
    simp only [List.map_cons, List.sum_cons]
    congr 1
    ring

theorem pid_step_exact (c : Controller) (kp ki kd p I a : ℚ)
    (hkp : c.Kp = .fin kp) (hki : c.Ki = .fin ki) (hkd : c.Kd = .fin kd)
    (hp : c.pre_error = .fin p) (hI : c.I_control = .fin I)
    (h : pid_no_rounding kp ki kd p I a) :
    (c.pid (.fin a)).1 = .fin (pid_exact kp ki kd p I a).1 ∧
    (c.pid (.fin a)).2.I_control = .fin (pid_exact kp ki kd p I a).2.1 ∧
    (c.pid (.fin a)).2.pre_error = .fin (pid_exact kp ki kd p I a).2.2 := by
  obtain ⟨h1, h2, h3, h4, h5, h6, h7, h8, h9, h10⟩ := h
  unfold F32.exact at h1 h2 h3 h4 h5 h6 h7 h8 h9 h10
  have he : desired_angle - F32.fin a = .fin (-4 - a) := by
    rw [desired_angle, F32.fin_sub, h1]
  have hI' : c.I_control + c.Ki * (desired_angle - .fin a) * Time
      = .fin (I + ki * (-4 - a) * 5) := by
    rw [he, hki, hI, Time, F32.fin_mul, h3, F32.fin_mul, h4, F32.fin_add, h5]
  refine ⟨?_, ?_, ?_⟩
  · rw [pid_fst, hI', he, hkp, hkd, hp, Time, F32.fin_mul, h2, F32.fin_sub, h6,
      F32.fin_mul, h7, F32.fin_div_five, h8, F32.fin_add, h9, F32.fin_add, h10]
    rfl
  · rw [pid_snd]; exact hI'
  · rw [pid_snd]; exact he

/-- With the gains of `task_sim` and the angle 0, a call of `pid` keeps an
accumulator between -524288 and 0 in that range. -/
theorem shipped_accumulator_step (x : ℚ) (hlo : -524288 ≤ x) (hhi : x ≤ 0) :
    ∃ y : ℚ, F32.fin x + F32.round (1 / 1000) * (desired_angle - F32.fin 0) * Time
        = F32.fin y ∧ -524288 ≤ y ∧ y ≤ 0 := by
  have hterm : F32.round (1 / 1000) * (desired_angle - F32.fin 0) * Time
      = F32.fin (-(10737419 / 536870912)) := by decide!
  rw [hterm, F32.fin_add]
  have hq : x + -(10737419 / 536870912 : ℚ) < 0 := by linarith
  by_cases hc : |x + -(10737419 / 536870912 : ℚ)| ≤ (2 : ℚ) ^ (19 : ℤ)
  · obtain ⟨y, hy, hy1, hy2, _⟩ := F32.round_bounds _ 19 (by norm_num) (by norm_num) hc
    refine ⟨y, hy, ?_, hy2 hq.le⟩
    have := (abs_le.mp hy1).1
    norm_num at this
    linarith
  · have hc' := not_le.mp hc
    rw [abs_of_neg hq] at hc'
    norm_num at hc'
    have hr := F32.round_neg_of_near (x + -(10737419 / 536870912 : ℚ)) 19 (2 ^ 23) hq
      (le_of_lt (not_le.mp hc))
      (by rw [abs_of_neg hq]; norm_num; linarith)
      (by norm_num)
      (by
        rw [abs_of_neg hq, abs_lt]
        norm_num
        constructor <;> linarith)
      (by norm_num)
    refine ⟨_, hr, ?_, ?_⟩ <;> norm_num

/-- With the integral gain of `task_sim` and the constant angle 0, the
accumulator stays between -524288 and 0 over any number of calls of `pid`. -/
theorem shipped_accumulator_bounded (n : ℕ) (c : Controller)
    (hki : c.Ki = F32.round (1 / 1000))
    (hI : ∃ x : ℚ, c.I_control = F32.fin x ∧ -524288 ≤ x ∧ x ≤ 0) :
    ∃ y : ℚ, (c.pid_calls (List.replicate n (F32.fin 0))).I_control = F32.fin y ∧
      -524288 ≤ y ∧ y ≤ 0 := by
  induction n generalizing c with
  | zero => exact hI
  | succ n ih =>
    obtain ⟨x, hx, hlo, hhi⟩ := hI
    rw [List.replicate_succ, Controller.pid_calls]
    apply ih
    · rw [pid_snd]; exact hki
    · rw [pid_snd]
      simp only [hx, hki]
      exact shipped_accumulator_step x hlo hhi

/-! ## The PID controller -/

/-- C2, counterexample: `Controller (0, 1e38, 0)` called at the angles -14 and
6 returns 255 and then NaN, and the controller of `task_sim` called at the
angles -3e38 and 3e38 returns 255 and then NaN; NaN is no value between 0 and
255. -/
theorem pid_output_can_be_nan :
    (Controller.new (.fin 0) (F32.round (10 ^ 38)) (.fin 0)).pid_outputs
        [.fin (-14), .fin 6] = [.fin 255, .nan] ∧
    task_sim_init.my_pid.pid_outputs
        [F32.round (-3 * 10 ^ 38), F32.round (3 * 10 ^ 38)] = [.fin 255, .nan] ∧
    ¬ ∃ q : ℚ,
      (((Controller.new (.fin 0) (F32.round (10 ^ 38)) (.fin 0)).pid (.fin (-14))).2.pid
        (.fin 6)).1 = .fin q ∧ 0 ≤ q ∧ q ≤ 255 := by
  refine ⟨by decide!, by decide!, ?_⟩
  rintro ⟨q, h, _⟩
  have hnan : (((Controller.new (.fin 0) (F32.round (10 ^ 38)) (.fin 0)).pid
      (.fin (-14))).2.pid (.fin 6)).1 = .nan := by decide!
  rw [hnan] at h
  cases h

/-- C2, amended (saturation bound): for every controller (all gains, every
history) and every current angle the value returned by `pid` is NaN or lies
between 0 and 255; it is NaN exactly when the sum of the three control terms of
the call is NaN, and it lies between 0 and 255 whenever the three control terms
are finite.  A fresh `Controller (38, 0.001, 0)` called at the angle -14, an
error of 10 degrees, returns 255. -/
theorem pid_output_nan_or_bounded :
    (∀ (c : Controller) (a : F32),
      (c.pid a).1 = .nan ∨ ∃ q : ℚ, (c.pid a).1 = .fin q ∧ 0 ≤ q ∧ q ≤ 255) ∧
    (∀ (c : Controller) (a : F32),
      (c.pid a).1 = .nan ↔
        (c.pid a).2.P_control + (c.pid a).2.I_control + (c.pid a).2.D_control = .nan) ∧
    (∀ (c : Controller) (a : F32) (p i d : ℚ),
      (c.pid a).2.P_control = .fin p → (c.pid a).2.I_control = .fin i →
      (c.pid a).2.D_control = .fin d →
      ∃ q : ℚ, (c.pid a).1 = .fin q ∧ 0 ≤ q ∧ q ≤ 255) ∧
    ((Controller.new (.fin 38) (F32.round (1 / 1000)) (.fin 0)).pid (.fin (-14))).2.pre_error
      = .fin 10 ∧
    ((Controller.new (.fin 38) (F32.round (1 / 1000)) (.fin 0)).pid (.fin (-14))).1
      = .fin 255 := by
  have hnan : ∀ (c : Controller) (a : F32), (c.pid a).1 = .nan ↔
      (c.pid a).2.P_control + (c.pid a).2.I_control + (c.pid a).2.D_control = .nan := by
    intro c a
    rw [pid_fst, pid_snd]
    exact min_abs_eq_nan_iff _
  refine ⟨fun c a => ?_, hnan, ?_, by decide!, by decide!⟩
  · rw [pid_fst]
    exact min_abs_cases _
  · intro c a p i d hp hi hd
    have hne : (c.pid a).1 ≠ .nan := by
      rw [Ne, hnan, hp, hi, hd, F32.fin_add]
      exact add_fin_ne_nan _ _ (F32.round_ne_nan _)
    have h := min_abs_cases (c.Kp * (desired_angle - a)
        + (c.I_control + c.Ki * (desired_angle - a) * Time)
        + c.Kd * ((desired_angle - a) - c.pre_error) / Time)
    rw [← pid_fst] at h
    exact h.resolve_left hne

/-- Witness for C2: the controller of `task_sim` at the angle -14, where the
three control terms are 380, 6710887 / 134217728 and 0. -/
theorem pid_output_nan_or_bounded_witness :
    ((task_sim_init.my_pid.pid (.fin (-14))).2.P_control = .fin 380 ∧
      (task_sim_init.my_pid.pid (.fin (-14))).2.I_control = .fin (6710887 / 134217728) ∧
      (task_sim_init.my_pid.pid (.fin (-14))).2.D_control = .fin 0) ∧
    ∃ q : ℚ, (task_sim_init.my_pid.pid (.fin (-14))).1 = .fin q ∧ 0 ≤ q ∧ q ≤ 255 :=
  ⟨by decide!,
    pid_output_nan_or_bounded.2.2.1 task_sim_init.my_pid (.fin (-14)) 380
      (6710887 / 134217728) 0 (by decide!) (by decide!) (by decide!)⟩

/-- C3, counterexample: for `Controller (-2e8, 1, 0)` after a call at the angle
-20000004 (gains, history and the next angle -4.5 are binary32 values, the
history being `pre_error = 2e7` and `I_control = 1e8`), the call of `pid` at the
angle -4.5 returns 0 and leaves `I_control = 1e8`, where the formula of the
claim gives 5/2 and 100000002.5. -/
theorem pid_differs_from_exact_formula :
    (rounding_example.Kp = .fin (-200000000) ∧ rounding_example.Ki = .fin 1 ∧
      rounding_example.Kd = .fin 0 ∧ rounding_example.pre_error = .fin 20000000 ∧
      rounding_example.I_control = .fin 100000000) ∧
    (F32.exact (-200000000) ∧ F32.exact 20000000 ∧ F32.exact 100000000 ∧
      F32.exact (-9 / 2)) ∧
    (rounding_example.pid (.fin (-9 / 2))).1 = .fin 0 ∧
    (rounding_example.pid (.fin (-9 / 2))).2.I_control = .fin 100000000 ∧
    pid_exact (-200000000) 1 0 20000000 100000000 (-9 / 2) = (5 / 2, 200000005 / 2, 1 / 2) ∧
    (rounding_example.pid (.fin (-9 / 2))).1
      ≠ .fin (pid_exact (-200000000) 1 0 20000000 100000000 (-9 / 2)).1 := by
  decide!

/-- C3, amended (the PID step equals its reference definition in `float`
arithmetic): for every controller state and every current angle `a`, one call
of `pid` returns the output of `pid_reference`, whose operations are the
rounded `float` operations, leaves `I_control` and `pre_error` at the values
`pid_reference` gives, and leaves `Kp`, `Ki`, `Kd` unchanged; and whenever the
gains, the history and the angle are finite and no operation of the step
rounds, these are the values of the exact formula `pid_exact`. -/
theorem pid_refines_float_reference :
    (∀ (c : Controller) (a : F32),
      (c.pid a).1 = (pid_reference c.Kp c.Ki c.Kd c.pre_error c.I_control a).1 ∧
      (c.pid a).2.I_control
        = (pid_reference c.Kp c.Ki c.Kd c.pre_error c.I_control a).2.1 ∧
      (c.pid a).2.pre_error
        = (pid_reference c.Kp c.Ki c.Kd c.pre_error c.I_control a).2.2 ∧
      (c.pid a).2.Kp = c.Kp ∧ (c.pid a).2.Ki = c.Ki ∧ (c.pid a).2.Kd = c.Kd) ∧
    (∀ (c : Controller) (kp ki kd p I a : ℚ),
      c.Kp = .fin kp → c.Ki = .fin ki → c.Kd = .fin kd →
      c.pre_error = .fin p → c.I_control = .fin I →
      pid_no_rounding kp ki kd p I a →
      (c.pid (.fin a)).1 = .fin (pid_exact kp ki kd p I a).1 ∧
      (c.pid (.fin a)).2.I_control = .fin (pid_exact kp ki kd p I a).2.1 ∧
      (c.pid (.fin a)).2.pre_error = .fin (pid_exact kp ki kd p I a).2.2) := by
  constructor
  · intro c a
    refine ⟨?_, ?_, ?_, ?_, ?_, ?_⟩
    · rw [pid_fst]; rfl
    all_goals simp only [pid_snd, pid_reference, desired_angle, Time]
  · intro c kp ki kd p I a hkp hki hkd hp hI h
    exact pid_step_exact c kp ki kd p I a hkp hki hkd hp hI h

/-- Witness for C3: `Controller (38, 0.5, 0)` called at the angle -5; no
operation rounds and the step returns 40.5 with accumulator 2.5 and error 1. -/
theorem pid_refines_float_reference_witness :
    pid_no_rounding 38 (1 / 2) 0 0 0 (-5) ∧
    pid_exact 38 (1 / 2) 0 0 0 (-5) = (81 / 2, 5 / 2, 1) ∧
    ((Controller.new (.fin 38) (.fin (1 / 2)) (.fin 0)).pid (.fin (-5))).1
      = .fin (pid_exact 38 (1 / 2) 0 0 0 (-5)).1 ∧
    ((Controller.new (.fin 38) (.fin (1 / 2)) (.fin 0)).pid (.fin (-5))).2.I_control
      = .fin (pid_exact 38 (1 / 2) 0 0 0 (-5)).2.1 ∧
    ((Controller.new (.fin 38) (.fin (1 / 2)) (.fin 0)).pid (.fin (-5))).2.pre_error
      = .fin (pid_exact 38 (1 / 2) 0 0 0 (-5)).2.2 :=
  ⟨by decide!, by decide!,
    pid_refines_float_reference.2 (Controller.new (.fin 38) (.fin (1 / 2)) (.fin 0))
      38 (1 / 2) 0 0 0 (-5) rfl rfl rfl rfl rfl (by decide!)⟩

/-- C9, counterexample: `Controller (0, 1, 0)` called at the angles -20000004,
-4.5, -4.5, -4.5 (binary32 values) ends with `I_control = 1e8`, where
`Ki * 5 * Σ (-4 - a)` is 100000007.5. -/
theorem integral_differs_from_exact_sum :
    (F32.exact (-20000004) ∧ F32.exact (-9 / 2) ∧ F32.exact 1) ∧
    ((Controller.new (.fin 0) (.fin 1) (.fin 0)).pid_calls
        [.fin (-20000004), .fin (-9 / 2), .fin (-9 / 2), .fin (-9 / 2)]).I_control
      = .fin 100000000 ∧
    (1 : ℚ) * 5 * (([-20000004, -9 / 2, -9 / 2, -9 / 2] : List ℚ).map fun a => -4 - a).sum
      = 200000015 / 2 ∧
    ((Controller.new (.fin 0) (.fin 1) (.fin 0)).pid_calls
        [.fin (-20000004), .fin (-9 / 2), .fin (-9 / 2), .fin (-9 / 2)]).I_control
      ≠ .fin ((1 : ℚ) * 5
          * (([-20000004, -9 / 2, -9 / 2, -9 / 2] : List ℚ).map fun a => -4 - a).sum) := by
  decide!

/-- C9, amended (the integral accumulator is never reset or clamped): after a
controller constructed with gains `kp ki kd` has been called with the angles
`as`, its `I_control` is the `float` sum accumulated call by call from 0 of the
rounded terms `ki * (-4 - a) * 5`, whatever outputs were returned; it is
`ki * 5 * Σ (-4 - a)` whenever no operation on the accumulator rounds; and it
need not be unbounded: with the gains of `task_sim` (integral gain `.001`, not
zero) and the constant angle 0 (error -4) it stays between -524288 and 0 after
any number of calls. -/
theorem integral_is_rounded_sum :
    (∀ (kp ki kd : F32) (as : List F32),
      ((Controller.new kp ki kd).pid_calls as).I_control
        = as.foldl (fun acc a => acc + ki * (desired_angle - a) * Time) (.fin 0)) ∧
    (∀ (kp kd : F32) (ki : ℚ) (as : List ℚ), accumulate_no_rounding ki 0 as →
      ((Controller.new kp (.fin ki) kd).pid_calls (as.map F32.fin)).I_control
        = .fin (ki * 5 * (as.map fun a => -4 - a).sum)) ∧
    (F32.round (1 / 1000) = .fin (8589935 / 8589934592) ∧
      desired_angle - .fin 0 = .fin (-4) ∧
      ∀ n : ℕ, ∃ y : ℚ,
        ((Controller.new (.fin 38) (F32.round (1 / 1000)) (.fin 0)).pid_calls
          (List.replicate n (.fin 0))).I_control = .fin y ∧ -524288 ≤ y ∧ y ≤ 0) := by
  refine ⟨fun kp ki kd as => ?_, fun kp kd ki as h => ?_, by decide!, by decide!, fun n => ?_⟩
  · rw [pid_calls_I_control]; rfl
  · rw [pid_calls_exact _ ki 0 as rfl rfl h, zero_add]
  · exact shipped_accumulator_bounded n _ rfl ⟨0, rfl, by norm_num, le_rfl⟩

/-- Witness for C9: `Controller (38, 0.5, 0)` called at the angles -5 and -6;
no operation on the accumulator rounds and it ends at 7.5. -/
theorem integral_is_rounded_sum_witness :
    accumulate_no_rounding (1 / 2) 0 [-5, -6] ∧
    ((Controller.new (.fin 38) (.fin (1 / 2)) (.fin 0)).pid_calls
        (([-5, -6] : List ℚ).map F32.fin)).I_control
      = .fin ((1 / 2 : ℚ) * 5 * (([-5, -6] : List ℚ).map fun a => -4 - a).sum) ∧
    ((1 / 2 : ℚ) * 5 * (([-5, -6] : List ℚ).map fun a => -4 - a).sum) = 15 / 2 :=
  ⟨⟨by decide!, by decide!, by decide!, by decide!,
      by decide!, by decide!, by decide!, by decide!, trivial⟩,
    integral_is_rounded_sum.2.1 (.fin 38) (.fin 0) (1 / 2) [-5, -6]
      ⟨by decide!, by decide!, by decide!, by decide!,
        by decide!, by decide!, by decide!, by decide!, trivial⟩,
    by norm_num⟩
/-! ## The control cycle of `task_sim` -/

/-- C1 (safety cutoff): in a cycle that begins in mode ENGAGED (`state = 1`) with
the switch read active and the pitch at or below -4, the duty-cycle writes of
the cycle are exactly 0 to `D6` and 0 to `D3`, and both pins hold 0 afterwards,
for every controller and so whatever `pid` returned. -/
theorem safety_cutoff (s : SimState) (inp : CycleInput)
    (_hmode : s.state = 1) (hsw : inp.button = true)
    (hp : F32.le inp.pitch (.fin (-4)) = true) :
    analog_writes (task_sim_cycle s inp).2
      = [.analog .D6 (.fin 0), .analog .D3 (.fin 0)] ∧
    (task_sim_cycle s inp).1.pins.D6 = .fin 0 ∧
    (task_sim_cycle s inp).1.pins.D3 = .fin 0 := by
  simp [task_sim_cycle, hsw, hp, analog_writes, Pins.writes, Pins.write]

/-- Witness for C1: the engaged example state, switch active, pitch -10, with a
controller whose `pid` returns 7472087 / 32768, about 228.03. -/
theorem safety_cutoff_witness :
    (engaged_example.state = 1 ∧
      (engaged_example.my_pid.pid (.fin (-10))).1 = .fin (7472087 / 32768)) ∧
    analog_writes (task_sim_cycle engaged_example ⟨.fin (-10), .fin (-10), true⟩).2
      = [.analog .D6 (.fin 0), .analog .D3 (.fin 0)] ∧
    (task_sim_cycle engaged_example ⟨.fin (-10), .fin (-10), true⟩).1.pins.D6 = .fin 0 ∧
    (task_sim_cycle engaged_example ⟨.fin (-10), .fin (-10), true⟩).1.pins.D3 = .fin 0 :=
  ⟨⟨rfl, by decide!⟩,
    safety_cutoff engaged_example ⟨.fin (-10), .fin (-10), true⟩ rfl rfl (by decide!)⟩

/-- C5 (engaged drive command): in a cycle that begins in mode ENGAGED with the
switch read active and the pitch strictly above -4, the duty-cycle writes of
the cycle are exactly the value returned by this cycle's call of `pid`, first to
`D6` and then to `D3`, and both pins hold that value afterwards. -/
theorem engaged_drive_command (s : SimState) (inp : CycleInput)
    (_hmode : s.state = 1) (hsw : inp.button = true)
    (hp : F32.lt (.fin (-4)) inp.pitch = true) :
    analog_writes (task_sim_cycle s inp).2
      = [.analog .D6 (s.my_pid.pid inp.cur_angle).1,
         .analog .D3 (s.my_pid.pid inp.cur_angle).1] ∧
    (task_sim_cycle s inp).1.pins.D6 = (s.my_pid.pid inp.cur_angle).1 ∧
    (task_sim_cycle s inp).1.pins.D3 = (s.my_pid.pid inp.cur_angle).1 := by
  simp [task_sim_cycle, hsw, F32.le_eq_false_of_lt _ _ hp, analog_writes, Pins.writes,
    Pins.write]

/-- Witness for C5: the engaged example state, switch active, pitch 0; `pid`
reads the angle -3 and returns 9962783 / 262144, about 38.005. -/
theorem engaged_drive_command_witness :
    (engaged_example.state = 1 ∧
      (engaged_example.my_pid.pid (.fin (-3))).1 = .fin (9962783 / 262144)) ∧
    analog_writes (task_sim_cycle engaged_example ⟨.fin 0, .fin (-3), true⟩).2
      = [.analog .D6 (engaged_example.my_pid.pid (.fin (-3))).1,
         .analog .D3 (engaged_example.my_pid.pid (.fin (-3))).1] ∧
    (task_sim_cycle engaged_example ⟨.fin 0, .fin (-3), true⟩).1.pins.D6
      = (engaged_example.my_pid.pid (.fin (-3))).1 ∧
    (task_sim_cycle engaged_example ⟨.fin 0, .fin (-3), true⟩).1.pins.D3
      = (engaged_example.my_pid.pid (.fin (-3))).1 :=
  ⟨⟨rfl, by decide!⟩,
    engaged_drive_command engaged_example ⟨.fin 0, .fin (-3), true⟩ rfl rfl (by decide!)⟩

/-- C6 (the PID controller runs unconditionally): whatever the mode and the
switch, a run of cycles leaves the controller as after one call of `pid` per
cycle on the angles read, and the values kept in `gain` are the values those
calls return; hence two runs from any two states with the same
controller, over inputs with the same angles read by `pid` and arbitrary
switch readings, end with the same controller and return the same sequence of
`pid` values. -/
theorem pid_runs_unconditionally (s₁ s₂ : SimState) (inps₁ inps₂ : List CycleInput)
    (hc : s₁.my_pid = s₂.my_pid)
    (ha : inps₁.map CycleInput.cur_angle = inps₂.map CycleInput.cur_angle) :
    (task_sim_run s₁ inps₁).my_pid
      = s₁.my_pid.pid_calls (inps₁.map CycleInput.cur_angle) ∧
    task_sim_gains s₁ inps₁
      = s₁.my_pid.pid_outputs (inps₁.map CycleInput.cur_angle) ∧
    (task_sim_run s₁ inps₁).my_pid = (task_sim_run s₂ inps₂).my_pid ∧
    task_sim_gains s₁ inps₁ = task_sim_gains s₂ inps₂ := by
  refine ⟨run_my_pid _ _, gains_eq_outputs _ _, ?_, ?_⟩
  · rw [run_my_pid, run_my_pid, hc, ha]
  · rw [gains_eq_outputs, gains_eq_outputs, hc, ha]

/-- Witness for C6: the entry state with inputs switch off, on, and the engaged
example state with inputs switch on, off, over the angles 0 and -14. -/
theorem pid_runs_unconditionally_witness :
    (task_sim_init.my_pid = engaged_example.my_pid ∧
      task_sim_init.state ≠ engaged_example.state) ∧
    (task_sim_run task_sim_init
        [⟨.fin 0, .fin 0, false⟩, ⟨.fin (-14), .fin (-14), true⟩]).my_pid
      = task_sim_init.my_pid.pid_calls [.fin 0, .fin (-14)] ∧
    task_sim_gains task_sim_init
        [⟨.fin 0, .fin 0, false⟩, ⟨.fin (-14), .fin (-14), true⟩]
      = task_sim_init.my_pid.pid_outputs [.fin 0, .fin (-14)] ∧
    (task_sim_run task_sim_init
        [⟨.fin 0, .fin 0, false⟩, ⟨.fin (-14), .fin (-14), true⟩]).my_pid
      = (task_sim_run engaged_example
        [⟨.fin 0, .fin 0, true⟩, ⟨.fin (-14), .fin (-14), false⟩]).my_pid ∧
    task_sim_gains task_sim_init
        [⟨.fin 0, .fin 0, false⟩, ⟨.fin (-14), .fin (-14), true⟩]
      = task_sim_gains engaged_example
        [⟨.fin 0, .fin 0, true⟩, ⟨.fin (-14), .fin (-14), false⟩] :=
  ⟨⟨rfl, by decide⟩,
    pid_runs_unconditionally task_sim_init engaged_example
      [⟨.fin 0, .fin 0, false⟩, ⟨.fin (-14), .fin (-14), true⟩]
      [⟨.fin 0, .fin 0, true⟩, ⟨.fin (-14), .fin (-14), false⟩] rfl rfl⟩

/-- C8 (mode-check defect): for every prior state and every input, a cycle makes
exactly the brake writes `HIGH` to `D12` and `HIGH` to `D4` (so never the `LOW`
writes of the STOPPED branch), leaves both brake lines `HIGH`, and ends with
`state` equal to 1 if the switch was read active and 0 otherwise. -/
theorem mode_check_defect (s : SimState) (inp : CycleInput) :
    PinWrite.digital .D12 false ∉ (task_sim_cycle s inp).2 ∧
    PinWrite.digital .D4 false ∉ (task_sim_cycle s inp).2 ∧
    (task_sim_cycle s inp).2.take 2 = [.digital .D12 true, .digital .D4 true] ∧
    (task_sim_cycle s inp).1.pins.D12 = true ∧
    (task_sim_cycle s inp).1.pins.D4 = true ∧
    (task_sim_cycle s inp).1.state = if inp.button = true then 1 else 0 := by
  unfold task_sim_cycle
  by_cases hb : inp.button = true <;>
    by_cases hp : F32.le inp.pitch (.fin (-4)) = true <;>
    simp [hb, hp, Pins.writes, Pins.write]

/-- C10 (no duty-cycle write when the switch is inactive): a cycle in which the
switch is read inactive makes no `analogWrite`, so `D6` and `D3` (and the phase
pins `D13`, `D5`) keep the values they had; and from the entry state, a
switch-active cycle with pitch 0 commands a duty above 0 (about 152.02), after
which a switch-inactive cycle ends in `state = 0` with that duty still on both
pins. -/
theorem inactive_switch_keeps_duty :
    (∀ (s : SimState) (inp : CycleInput), inp.button = false →
      analog_writes (task_sim_cycle s inp).2 = [] ∧
      (task_sim_cycle s inp).1.pins.D6 = s.pins.D6 ∧
      (task_sim_cycle s inp).1.pins.D3 = s.pins.D3 ∧
      (task_sim_cycle s inp).1.pins.D13 = s.pins.D13 ∧
      (task_sim_cycle s inp).1.pins.D5 = s.pins.D5) ∧
    (∃ (inp₁ inp₂ : CycleInput) (d : ℚ),
      inp₁.button = true ∧ F32.lt (.fin (-4)) inp₁.pitch = true ∧
      inp₂.button = false ∧ 0 < d ∧
      analog_writes (task_sim_cycle task_sim_init inp₁).2
        = [.analog .D6 (.fin d), .analog .D3 (.fin d)] ∧
      (task_sim_run task_sim_init [inp₁, inp₂]).state = 0 ∧
      (task_sim_run task_sim_init [inp₁, inp₂]).pins.D6 = .fin d ∧
      (task_sim_run task_sim_init [inp₁, inp₂]).pins.D3 = .fin d) := by
  constructor
  · intro s inp hb
    simp [task_sim_cycle, hb, analog_writes, Pins.writes, Pins.write]
  · exact ⟨⟨.fin 0, .fin 0, true⟩, ⟨.fin 0, .fin 0, false⟩, 9962783 / 65536,
      rfl, by decide!, rfl, by norm_num, by decide!, by decide!, by decide!, by decide!⟩

/-- Witness for C10: the engaged example state with both duty pins at 200 and
a cycle with the switch inactive. -/
theorem inactive_switch_keeps_duty_witness :
    (CycleInput.mk (.fin 0) (.fin 0) false).button = false ∧
    analog_writes (task_sim_cycle
      { engaged_example with
        pins := { engaged_example.pins with D6 := .fin 200, D3 := .fin 200 } }
      ⟨.fin 0, .fin 0, false⟩).2 = [] ∧
    (task_sim_cycle
      { engaged_example with
        pins := { engaged_example.pins with D6 := .fin 200, D3 := .fin 200 } }
      ⟨.fin 0, .fin 0, false⟩).1.pins.D6 = .fin 200 ∧
    (task_sim_cycle
      { engaged_example with
        pins := { engaged_example.pins with D6 := .fin 200, D3 := .fin 200 } }
      ⟨.fin 0, .fin 0, false⟩).1.pins.D3 = .fin 200 :=
  ⟨rfl,
    (inactive_switch_keeps_duty.1
      { engaged_example with
        pins := { engaged_example.pins with D6 := .fin 200, D3 := .fin 200 } }
      ⟨.fin 0, .fin 0, false⟩ rfl).1,
    (inactive_switch_keeps_duty.1
      { engaged_example with
        pins := { engaged_example.pins with D6 := .fin 200, D3 := .fin 200 } }
      ⟨.fin 0, .fin 0, false⟩ rfl).2.1,
    (inactive_switch_keeps_duty.1
      { engaged_example with
        pins := { engaged_example.pins with D6 := .fin 200, D3 := .fin 200 } }
      ⟨.fin 0, .fin 0, false⟩ rfl).2.2.1⟩

/-- C4 (state machine round trip), evaluated on the code: the entry state has
`state = 0`, both brake lines `LOW` and duty 0 on both pins; after one cycle
with the switch active (pitch and angle 0) `state` is 1, and after a further
cycle with the switch inactive `state` is 0 again, but both brake lines are
`HIGH` and both duty pins hold 9962783 / 65536, about 152.02. -/
theorem round_trip_outputs_differ :
    (task_sim_init.state = 0 ∧ task_sim_init.pins.D12 = false ∧
      task_sim_init.pins.D4 = false ∧ task_sim_init.pins.D6 = .fin 0 ∧
      task_sim_init.pins.D3 = .fin 0) ∧
    (task_sim_run task_sim_init [⟨.fin 0, .fin 0, true⟩]).state = 1 ∧
    ((task_sim_run task_sim_init
        [⟨.fin 0, .fin 0, true⟩, ⟨.fin 0, .fin 0, false⟩]).state = 0 ∧
      (task_sim_run task_sim_init
        [⟨.fin 0, .fin 0, true⟩, ⟨.fin 0, .fin 0, false⟩]).pins.D12 = true ∧
      (task_sim_run task_sim_init
        [⟨.fin 0, .fin 0, true⟩, ⟨.fin 0, .fin 0, false⟩]).pins.D4 = true ∧
      (task_sim_run task_sim_init
        [⟨.fin 0, .fin 0, true⟩, ⟨.fin 0, .fin 0, false⟩]).pins.D6
        = .fin (9962783 / 65536) ∧
      (task_sim_run task_sim_init
        [⟨.fin 0, .fin 0, true⟩, ⟨.fin 0, .fin 0, false⟩]).pins.D3
        = .fin (9962783 / 65536)) := by
  decide!

end Balanceboard
